import Mathlib

/-!
Shallow embedding of the multi-account scan orchestrator of
cloudsift (cmd/scan/scan.go): progress tracking, task expansion,
result filtering, result enrichment and aggregation, and the
account allow-list filter, together with proofs of the spec's
testable properties.
-/

set_option autoImplicit false

namespace Cloudsift

/-- Embedding of Go's strings.EqualFold: case-insensitive string equality. -/
def eqFold (a b : String) : Bool :=
  a.toLower == b.toLower

/-- awsinternal.Account: {ID, Name}. -/
structure Account where
  ID : String
  Name : String
deriving DecidableEq, Repr

/-- A scanner as the orchestrator sees it: its Label() value. -/
structure Scanner where
  label : String
deriving DecidableEq, Repr

/-- isIAMScanner (scan.go): true when the scanner label is IAM Roles or IAM Users. -/
def isIAMScanner (s : Scanner) : Bool :=
  s.label == "IAM Roles" || s.label == "IAM Users"

/-- awsinternal.ScanResult as the orchestrator manipulates it: resource id,
resource name, tags, the Details map (only the region key is written by the
orchestrator; none models a nil Go map), and the account fields set post-hoc. -/
structure ScanResult where
  ResourceID : String
  ResourceName : String
  Tags : List (String × String)
  Details : Option (List (String × String))
  AccountID : String
  AccountName : String
deriving DecidableEq, Repr

/-- The operator-supplied ignore rules read from config at scan start. -/
structure IgnoreRules where
  resourceIDs : List String
  resourceNames : List String
  tags : List (String × String)
deriving DecidableEq, Repr

/-- scannerProgress (scan.go): the mutable in-flight record. -/
structure ScannerProgress where
  AccountID : String
  AccountName : String
  Region : String
  Scanner : String
  ResultCount : Int
deriving DecidableEq, Repr

/-- The scannerProgressMap's underlying Go map, keyed by the composite string;
modelled as an association list with set-semantics operations. -/
abbrev ProgressMap : Type := List (String × ScannerProgress)

/-- The composite key accountID:region:scanner built by fmt.Sprintf. -/
def progressKey (accountID region scanner : String) : String :=
  accountID ++ ":" ++ region ++ ":" ++ scanner

/-- Go map lookup on the modelled progress map. -/
def lookupProgress (m : ProgressMap) (k : String) : Option ScannerProgress :=
  (m.find? (fun p => p.1 == k)).map Prod.snd

/-- startScanner (scan.go): s.progress[key] = &scannerProgress{...} with
ResultCount 0. Map assignment: any previous binding of the key is replaced. -/
def startScanner (m : ProgressMap) (accountID accountName region scanner : String) :
    ProgressMap :=
  (progressKey accountID region scanner,
    { AccountID := accountID, AccountName := accountName, Region := region,
      Scanner := scanner, ResultCount := 0 }) ::
    m.filter (fun p => !(p.1 == progressKey accountID region scanner))

/-- updateResultCount (scan.go): if the key exists, mutate that record's
ResultCount in place; otherwise do nothing. -/
def updateResultCount (m : ProgressMap) (accountID region scanner : String)
    (count : Int) : ProgressMap :=
  m.map (fun p =>
    if p.1 == progressKey accountID region scanner then
      (p.1, { AccountID := p.2.AccountID, AccountName := p.2.AccountName,
              Region := p.2.Region, Scanner := p.2.Scanner,
              ResultCount := count })
    else p)

/-- completeScanner (scan.go): delete(s.progress, key). -/
def completeScanner (m : ProgressMap) (accountID region scanner : String) :
    ProgressMap :=
  m.filter (fun p => !(p.1 == progressKey accountID region scanner))

/-- getRunning (scan.go): the values of the progress map (a snapshot). -/
def getRunning (m : ProgressMap) : List ScannerProgress :=
  m.map Prod.snd

/-- The per-scanner region list of the expansion loop in runScan:
IAM scanners scan only us-east-1, every other scanner scans all
requested regions. -/
def effectiveRegions (regions : List String) (s : Scanner) : List String :=
  if isIAMScanner s then ["us-east-1"] else regions

/-- One unit of work: the (scanner, region, account) triple the nested
loops of runScan produce, in loop order (scanner-major, then region,
then account). -/
structure ScanUnit where
  scanner : Scanner
  region : String
  account : Account
deriving DecidableEq, Repr

/-- The task-expansion loops of runScan: for each scanner, for each
effective region, for each account, one task. -/
def expandUnits (scanners : List Scanner) (regions : List String)
    (accounts : List Account) : List ScanUnit :=
  scanners.flatMap (fun s =>
    (effectiveRegions regions s).flatMap (fun r =>
      accounts.map (fun a => { scanner := s, region := r, account := a })))

/-- The per-result ignore decision of the filtering loop in runScan:
resource id match, else resource name match, else tag pair match
(the tag loop only runs when the result has tags). -/
def shouldIgnoreResult (rules : IgnoreRules) (r : ScanResult) : Bool :=
  if rules.resourceIDs.any (fun ignoreID => eqFold r.ResourceID ignoreID) then
    true
  else if rules.resourceNames.any (fun ignoreName => eqFold r.ResourceName ignoreName) then
    true
  else if !r.Tags.isEmpty then
    rules.tags.any (fun ignoreTag =>
      r.Tags.any (fun tag => eqFold tag.1 ignoreTag.1 && eqFold tag.2 ignoreTag.2))
  else
    false

/-- The filtering loop of runScan: keep the results the ignore rules do not match. -/
def filterResults (rules : IgnoreRules) (results : List ScanResult) :
    List ScanResult :=
  results.filter (fun r => !shouldIgnoreResult rules r)

/-- The logRegion of the task closure: IAM scanners always log region as global. -/
def logRegionOf (s : Scanner) (region : String) : String :=
  if isIAMScanner s then "global" else region

/-- Go map assignment d[k] = v on the modelled Details map. -/
def detailsSet (d : List (String × String)) (k v : String) :
    List (String × String) :=
  if d.any (fun p => p.1 == k) then
    d.map (fun p => if p.1 == k then (p.1, v) else p)
  else d ++ [(k, v)]

/-- Go map lookup on the modelled Details map. -/
def detailsGet (d : List (String × String)) (k : String) : Option String :=
  (d.find? (fun p => p.1 == k)).map Prod.snd

/-- The post-filter enrichment loop of runScan: allocate Details when nil,
set AccountID and AccountName, and set the region detail to global for IAM
scanners and to the actual region otherwise. -/
def enrichResults (s : Scanner) (region : String) (account : Account)
    (rs : List ScanResult) : List ScanResult :=
  rs.map (fun r =>
    { r with
      Details := some (detailsSet (r.Details.getD []) "region"
        (if isIAMScanner s then "global" else region)),
      AccountID := account.ID,
      AccountName := account.Name })

/-- accountResults flattened to its mutable content: for each
(accountID, scannerLabel) key the accumulated result slice. -/
abbrev ResultsMap : Type := List ((String × String) × List ScanResult)

/-- The accumulated slice for a key; a missing key is the nil slice. -/
def lookupResults (m : ResultsMap) (k : String × String) : List ScanResult :=
  ((m.find? (fun p => p.1 == k)).map Prod.snd).getD []

/-- The aggregation critical section of runScan: assign the slice when the
map entry is nil, append to it otherwise. -/
def appendResults (m : ResultsMap) (accountID label : String)
    (rs : List ScanResult) : ResultsMap :=
  if m.any (fun p => p.1 == (accountID, label)) then
    m.map (fun p => if p.1 == (accountID, label) then (p.1, p.2 ++ rs) else p)
  else m ++ [((accountID, label), rs)]

/-- The effectful collaborators of one task body: whether
GetSessionInRegion succeeds, and what scanner.Scan returns. -/
structure UnitEnv where
  sessionOk : Bool
  scanOutcome : Except String (List ScanResult)

/-- The task closure of runScan for one (scanner, region, account) unit,
with its progress-map and results-map effects made explicit. The deferred
completeScanner runs on every exit path, as in the Go defer. -/
def runUnit (rules : IgnoreRules) (u : ScanUnit) (env : UnitEnv)
    (pm : ProgressMap) (res : ResultsMap) :
    Except String Unit × ProgressMap × ResultsMap :=
  let logRegion := logRegionOf u.scanner u.region
  let pm1 := startScanner pm u.account.ID u.account.Name logRegion u.scanner.label
  if !env.sessionOk then
    (Except.error "failed to create regional session",
      completeScanner pm1 u.account.ID logRegion u.scanner.label, res)
  else
    match env.scanOutcome with
    | Except.error e =>
        (Except.error e,
          completeScanner pm1 u.account.ID logRegion u.scanner.label, res)
    | Except.ok results =>
        let filtered := filterResults rules results
        let pm2 := updateResultCount pm1 u.account.ID logRegion u.scanner.label
          (filtered.length : Int)
        let enriched := enrichResults u.scanner u.region u.account filtered
        let res2 := appendResults res u.account.ID u.scanner.label enriched
        (Except.ok (),
          completeScanner pm2 u.account.ID logRegion u.scanner.label, res2)

/-- Modelled from the spec: worker.ExecuteTasks of the shared bounded worker
pool (package internal/worker, not under src/) runs every submitted task to a
terminal state and a task's failure does not abort sibling tasks or the
batch; failures are only counted in the pool metrics. Its observable effect
on the shared progress and result state is each unit body running in turn. -/
def executeAll (rules : IgnoreRules) (units : List (ScanUnit × UnitEnv))
    (pm : ProgressMap) (res : ResultsMap) (failed : Nat) :
    ProgressMap × ResultsMap × Nat :=
  match units with
  | [] => (pm, res, failed)
  | (u, env) :: rest =>
      match runUnit rules u env pm res with
      | (Except.ok _, pm2, res2) => executeAll rules rest pm2 res2 failed
      | (Except.error _, pm2, res2) => executeAll rules rest pm2 res2 (failed + 1)

/-- The explicit-accounts filter block of runScan: when opts.accounts is
non-empty, report the requested IDs missing from the listing, keep only the
requested accounts, and fail the run when none remain. Returns the kept
accounts together with the IDs reported invalid. -/
def filterAccountsByRequest (optsAccounts : String) (accounts : List Account) :
    Except String (List Account × List String) :=
  if optsAccounts == "" then Except.ok (accounts, [])
  else
    let requested := (optsAccounts.splitOn ",").map (fun s => s.trim)
    let invalid := requested.filter (fun id => !accounts.any (fun a => a.ID == id))
    let filtered := accounts.filter (fun a => requested.any (fun id => id == a.ID))
    if filtered.isEmpty then
      Except.error "none of the specified accounts exist in the organization"
    else Except.ok (filtered, invalid)

/-- The effectful collaborators of account resolution: the organization
listing outcome, the current-account fallback outcome, and per-account
scanner-role assumption plus identity verification. -/
structure ResolveEnv where
  orgListing : Except String (List Account)
  currentAccount : Except String (List Account)
  authOk : String → Bool

/-- The account-listing block of runScan: organization listing with fallback
to the current account when both roles are set, otherwise the current
account; none models the paths where runScan logs the error and returns nil. -/
def listAccounts (orgRole scannerRole : String) (env : ResolveEnv) :
    Option (List Account) :=
  if orgRole != "" && scannerRole != "" then
    match env.orgListing with
    | Except.ok accs => some accs
    | Except.error _ =>
        match env.currentAccount with
        | Except.ok accs => some accs
        | Except.error _ => none
  else
    match env.currentAccount with
    | Except.ok accs => some accs
    | Except.error _ => none

/-- Account resolution followed by task expansion, in runScan's order:
listing (with graceful fallbacks), the explicit-accounts filter (the one
fatal error), per-account session establishment dropping accounts whose
role assumption fails, the no-sessions graceful skip, then the expansion.
Except.ok none models runScan returning nil without scheduling any unit. -/
def resolveAndExpand (orgRole scannerRole optsAccounts : String)
    (env : ResolveEnv) (scanners : List Scanner) (regions : List String) :
    Except String (Option (List ScanUnit)) :=
  match listAccounts orgRole scannerRole env with
  | none => Except.ok none
  | some accounts =>
      match filterAccountsByRequest optsAccounts accounts with
      | Except.error e => Except.error e
      | Except.ok (accs, _) =>
          let authed := if orgRole != "" && scannerRole != "" then
              accs.filter (fun a => env.authOk a.ID)
            else accs
          if authed.isEmpty then Except.ok none
          else Except.ok (some (expandUnits scanners regions authed))

/-- Check (a) of the filtering loop: resource ID in the ignore list. -/
def matchesIgnoreID (rules : IgnoreRules) (r : ScanResult) : Bool :=
  rules.resourceIDs.any (fun ignoreID => eqFold r.ResourceID ignoreID)

/-- Check (b) of the filtering loop: resource name in the ignore list. -/
def matchesIgnoreName (rules : IgnoreRules) (r : ScanResult) : Bool :=
  rules.resourceNames.any (fun ignoreName => eqFold r.ResourceName ignoreName)

/-- Check (c) of the filtering loop: some ignore-tag pair matches some tag
pair on the result (the loop only runs when the result has tags). -/
def matchesIgnoreTag (rules : IgnoreRules) (r : ScanResult) : Bool :=
  !r.Tags.isEmpty && rules.tags.any (fun ignoreTag =>
    r.Tags.any (fun tag =>
      eqFold tag.1 ignoreTag.1 && eqFold tag.2 ignoreTag.2))

/-- The ignore-rule match relation as the spec words it: some ignore
resource ID equals the result's resource ID case-insensitively, or some
ignore resource name equals the result's resource name case-insensitively,
or some ignore key/value pair equals some tag pair on the result
case-insensitively on both key and value. -/
def specRuleMatches (rules : IgnoreRules) (r : ScanResult) : Prop :=
  (∃ x ∈ rules.resourceIDs, eqFold r.ResourceID x = true) ∨
  (∃ x ∈ rules.resourceNames, eqFold r.ResourceName x = true) ∨
  (∃ it ∈ rules.tags, ∃ t ∈ r.Tags,
    eqFold t.1 it.1 = true ∧ eqFold t.2 it.2 = true)

/-- The id-rule category of the filter on its own. -/
def filterByIgnoreIDs (rules : IgnoreRules) (rs : List ScanResult) :
    List ScanResult :=
  rs.filter (fun r => !matchesIgnoreID rules r)

/-- The name-rule category of the filter on its own. -/
def filterByIgnoreNames (rules : IgnoreRules) (rs : List ScanResult) :
    List ScanResult :=
  rs.filter (fun r => !matchesIgnoreName rules r)

/-- The tag-rule category of the filter on its own. -/
def filterByIgnoreTags (rules : IgnoreRules) (rs : List ScanResult) :
    List ScanResult :=
  rs.filter (fun r => !matchesIgnoreTag rules r)

/-- The key a unit aggregates under: its account ID and scanner label. -/
def targetKey (u : ScanUnit) : String × String :=
  (u.account.ID, u.scanner.label)

/-- The retained, enriched results a unit contributes to the aggregate:
empty on either failure path. -/
def unitContribution (rules : IgnoreRules) (u : ScanUnit) (env : UnitEnv) :
    List ScanResult :=
  if env.sessionOk then
    match env.scanOutcome with
    | Except.error _ => []
    | Except.ok results =>
        enrichResults u.scanner u.region u.account
          (filterResults rules results)
  else []

/-! ### Generic association-list lemmas shared by the proofs -/

section MapLemmas

variable {κ β : Type} [BEq κ] [LawfulBEq κ]

theorem find_map_update (m : List (κ × β)) (k : κ) (g : β → β) :
    (m.map (fun p => if p.1 == k then (p.1, g p.2) else p)).find?
        (fun p => p.1 == k) =
      (m.find? (fun p => p.1 == k)).map (fun p => (p.1, g p.2)) := by
  induction m with
  | nil => rfl
  | cons p t ih =>
    cases hp : (p.1 == k) with
    | true =>
      simp only [List.map_cons, hp, if_true]
      rw [List.find?_cons_of_pos _ (by simpa using hp),
        List.find?_cons_of_pos _ (by simpa using hp)]
      rfl
    | false =>
      simp only [List.map_cons, hp, if_false]
      rw [List.find?_cons_of_neg _ (by simpa using hp),
        List.find?_cons_of_neg _ (by simpa using hp), ih]

theorem find_map_update_ne (m : List (κ × β)) (k k' : κ) (g : β → β)
    (h : (k' == k) = false) :
    (m.map (fun p => if p.1 == k then (p.1, g p.2) else p)).find?
        (fun p => p.1 == k') =
      m.find? (fun p => p.1 == k') := by
  induction m with
  | nil => rfl
  | cons p t ih =>
    cases hp : (p.1 == k) with
    | true =>
      have hpk : p.1 = k := by simpa using hp
      have hne : (p.1 == k') = false := by
        subst hpk
        simpa [BEq.comm] using h
      simp only [List.map_cons, hp, if_true]
      rw [List.find?_cons_of_neg _ (by simpa using hne),
        List.find?_cons_of_neg _ (by simpa using hne), ih]
    | false =>
      simp only [List.map_cons, hp, if_false]
      cases hq : (p.1 == k') with
      | true =>
        rw [List.find?_cons_of_pos _ (by simpa using hq),
          List.find?_cons_of_pos _ (by simpa using hq)]
        simp
      | false =>
        rw [List.find?_cons_of_neg _ (by simpa using hq),
          List.find?_cons_of_neg _ (by simpa using hq), ih]

omit [LawfulBEq κ] in
theorem find_map_update_id (m : List (κ × β)) (k : κ) (g : β → β)
    (h : m.find? (fun p => p.1 == k) = none) :
    m.map (fun p => if p.1 == k then (p.1, g p.2) else p) = m := by
  have hall := List.find?_eq_none.mp h
  have : ∀ p ∈ m, (if p.1 == k then (p.1, g p.2) else p) = p := by
    intro p hp
    have : ¬((p.1 == k) = true) := hall p hp
    simp [this]
  calc m.map (fun p => if p.1 == k then (p.1, g p.2) else p)
      = m.map (fun p => p) := List.map_congr_left this
    _ = m := List.map_id' m

theorem find_filter_self (m : List (κ × β)) (k : κ) :
    (m.filter (fun p => !(p.1 == k))).find? (fun p => p.1 == k) = none := by
  apply List.find?_eq_none.mpr
  intro p hp
  have := (List.mem_filter.mp hp).2
  simp at this
  simp [this]

theorem find_filter_ne (m : List (κ × β)) (k k' : κ) (h : (k' == k) = false) :
    (m.filter (fun p => !(p.1 == k))).find? (fun p => p.1 == k') =
      m.find? (fun p => p.1 == k') := by
  induction m with
  | nil => rfl
  | cons p t ih =>
    cases hp : (p.1 == k) with
    | true =>
      have hpk : p.1 = k := by simpa using hp
      have hne : (p.1 == k') = false := by
        subst hpk
        simpa [BEq.comm] using h
      rw [List.find?_cons_of_neg _ (by simpa using hne)]
      have hfil : (p :: t).filter (fun q => !(q.1 == k)) =
          t.filter (fun q => !(q.1 == k)) := by
        simp [List.filter_cons, hp]
      rw [hfil, ih]
    | false =>
      have hfil : (p :: t).filter (fun q => !(q.1 == k)) =
          p :: t.filter (fun q => !(q.1 == k)) := by
        simp [List.filter_cons, hp]
      rw [hfil]
      cases hq : (p.1 == k') with
      | true =>
        rw [List.find?_cons_of_pos _ (by simpa using hq),
          List.find?_cons_of_pos _ (by simpa using hq)]
      | false =>
        rw [List.find?_cons_of_neg _ (by simpa using hq),
          List.find?_cons_of_neg _ (by simpa using hq), ih]

end MapLemmas

/-! ### Progress map operation lemmas -/

theorem lookupProgress_start_self (m : ProgressMap)
    (aid aname region scanner : String) :
    lookupProgress (startScanner m aid aname region scanner)
        (progressKey aid region scanner) =
      some { AccountID := aid, AccountName := aname, Region := region,
             Scanner := scanner, ResultCount := 0 } := by
  unfold lookupProgress startScanner
  rw [List.find?_cons_of_pos _ (by simp)]
  rfl

theorem lookupProgress_complete_self (m : ProgressMap)
    (aid region scanner : String) :
    lookupProgress (completeScanner m aid region scanner)
      (progressKey aid region scanner) = none := by
  unfold lookupProgress completeScanner
  rw [find_filter_self]
  rfl

theorem completeScanner_all_ne (m : ProgressMap) (aid region scanner : String) :
    (completeScanner m aid region scanner).all
      (fun q => !(q.1 == progressKey aid region scanner)) = true := by
  apply List.all_eq_true.mpr
  intro q hq
  exact (List.mem_filter.mp hq).2

/-- The progress-map component of runUnit is always a completeScanner of
some intermediate map under the unit's own key: the deferred release runs
on every exit path of the task body. -/
theorem runUnit_progress_completed (rules : IgnoreRules) (u : ScanUnit)
    (env : UnitEnv) (pm : ProgressMap) (res : ResultsMap) :
    ∃ pm1, (runUnit rules u env pm res).2.1 =
      completeScanner pm1 u.account.ID (logRegionOf u.scanner u.region)
        u.scanner.label := by
  cases hs : env.sessionOk with
  | false =>
    exact ⟨startScanner pm u.account.ID u.account.Name
      (logRegionOf u.scanner u.region) u.scanner.label, by simp [runUnit, hs]⟩
  | true =>
    cases ho : env.scanOutcome with
    | error e =>
      exact ⟨startScanner pm u.account.ID u.account.Name
        (logRegionOf u.scanner u.region) u.scanner.label,
        by simp [runUnit, hs, ho]⟩
    | ok results =>
      exact ⟨updateResultCount
        (startScanner pm u.account.ID u.account.Name
          (logRegionOf u.scanner u.region) u.scanner.label)
        u.account.ID (logRegionOf u.scanner u.region) u.scanner.label
        ((filterResults rules results).length : Int),
        by simp [runUnit, hs, ho]⟩

/-- C10: calling updateResultCount with an absent composite key leaves the
progress map entirely unchanged (it never creates an entry); with a present
key it changes only that entry's ResultCount, preserving the entry's other
fields and every other entry of the map. -/
theorem updateResultCount_frame (m : ProgressMap)
    (accountID region scanner : String) (count : Int) :
    (lookupProgress m (progressKey accountID region scanner) = none →
      updateResultCount m accountID region scanner count = m) ∧
    (∀ k, k ≠ progressKey accountID region scanner →
      lookupProgress (updateResultCount m accountID region scanner count) k =
        lookupProgress m k) ∧
    (∀ p, lookupProgress m (progressKey accountID region scanner) = some p →
      lookupProgress (updateResultCount m accountID region scanner count)
          (progressKey accountID region scanner) =
        some { AccountID := p.AccountID, AccountName := p.AccountName,
               Region := p.Region, Scanner := p.Scanner,
               ResultCount := count }) := by
  refine ⟨fun h => ?_, fun k hk => ?_, fun p hp => ?_⟩
  · have h0 : m.find?
        (fun q => q.1 == progressKey accountID region scanner) = none := by
      unfold lookupProgress at h
      exact Option.map_eq_none'.mp h
    unfold updateResultCount
    exact find_map_update_id m (progressKey accountID region scanner)
      (fun v => { AccountID := v.AccountID, AccountName := v.AccountName,
                  Region := v.Region, Scanner := v.Scanner,
                  ResultCount := count }) h0
  · have hb : (k == progressKey accountID region scanner) = false :=
      beq_eq_false_iff_ne.mpr hk
    unfold lookupProgress updateResultCount
    rw [find_map_update_ne m (progressKey accountID region scanner) k
      (fun v => { AccountID := v.AccountID, AccountName := v.AccountName,
                  Region := v.Region, Scanner := v.Scanner,
                  ResultCount := count }) hb]
  · unfold lookupProgress at hp
    obtain ⟨q, hq, hq2⟩ := Option.map_eq_some'.mp hp
    unfold lookupProgress updateResultCount
    rw [find_map_update m (progressKey accountID region scanner)
      (fun v => { AccountID := v.AccountID, AccountName := v.AccountName,
                  Region := v.Region, Scanner := v.Scanner,
                  ResultCount := count }), hq]
    simp [hq2]

/-- Witness for updateResultCount_frame: on the empty map the call is a
no-op, and on a singleton map only the ResultCount changes. -/
theorem updateResultCount_frame_witness :
    updateResultCount [] "111111111111" "us-east-1" "EBS Volumes" 5 = [] ∧
    lookupProgress (updateResultCount
        [(progressKey "111111111111" "global" "IAM Roles",
          { AccountID := "111111111111", AccountName := "prod",
            Region := "global", Scanner := "IAM Roles", ResultCount := 0 })]
        "111111111111" "global" "IAM Roles" 7)
      (progressKey "111111111111" "global" "IAM Roles") =
      some { AccountID := "111111111111", AccountName := "prod",
             Region := "global", Scanner := "IAM Roles",
             ResultCount := 7 } := by
  constructor
  · exact (updateResultCount_frame [] "111111111111" "us-east-1"
      "EBS Volumes" 5).1 rfl
  · exact (updateResultCount_frame _ "111111111111" "global"
      "IAM Roles" 7).2.2
      { AccountID := "111111111111", AccountName := "prod",
        Region := "global", Scanner := "IAM Roles", ResultCount := 0 }
      (by decide)

/-- C3: on every exit path of a unit body (regional-session failure, scan
failure, success) the deferred completeScanner runs, and once it has the
progress map holds no entry under the unit's composite key, so a snapshot
taken afterwards never contains that unit. -/
theorem runUnit_progress_no_leak (rules : IgnoreRules) (u : ScanUnit)
    (env : UnitEnv) (pm : ProgressMap) (res : ResultsMap) :
    ((runUnit rules u env pm res).2.1.all
      (fun q => !(q.1 == progressKey u.account.ID
        (logRegionOf u.scanner u.region) u.scanner.label))) = true ∧
    lookupProgress (runUnit rules u env pm res).2.1
      (progressKey u.account.ID (logRegionOf u.scanner u.region)
        u.scanner.label) = none := by
  obtain ⟨pm1, hpm⟩ := runUnit_progress_completed rules u env pm res
  rw [hpm]
  exact ⟨completeScanner_all_ne pm1 _ _ _,
    lookupProgress_complete_self pm1 _ _ _⟩

/-- C6 counterexample: for a global-scope (IAM) unit on us-east-1 the record
created at unit start carries Region "global" rather than the canonical
region, and the composite key is built from "global" as well, so the key
under us-east-1 resolves to nothing. -/
theorem progress_region_counterexample :
    (getRunning (startScanner [] "111111111111" "prod"
        (logRegionOf { label := "IAM Roles" } "us-east-1") "IAM Roles")).map
      ScannerProgress.Region = ["global"] ∧
    lookupProgress (startScanner [] "111111111111" "prod"
        (logRegionOf { label := "IAM Roles" } "us-east-1") "IAM Roles")
      (progressKey "111111111111" "us-east-1" "IAM Roles") = none := by
  decide

/-- C6 amended: for a global-scope scanner unit, the ScannerProgress Region
field and the composite progress key are both built from the display label
"global" (not the canonical internal region), and the key used at start is
exactly the key the deferred complete uses on every exit path of the unit. -/
theorem progress_region_global (rules : IgnoreRules) (u : ScanUnit)
    (env : UnitEnv) (pm : ProgressMap) (res : ResultsMap)
    (h : isIAMScanner u.scanner = true) :
    logRegionOf u.scanner u.region = "global" ∧
    lookupProgress (startScanner pm u.account.ID u.account.Name
        (logRegionOf u.scanner u.region) u.scanner.label)
      (progressKey u.account.ID "global" u.scanner.label) =
      some { AccountID := u.account.ID, AccountName := u.account.Name,
             Region := "global", Scanner := u.scanner.label,
             ResultCount := 0 } ∧
    lookupProgress (runUnit rules u env pm res).2.1
      (progressKey u.account.ID "global" u.scanner.label) = none := by
  have hlr : logRegionOf u.scanner u.region = "global" := by
    simp [logRegionOf, h]
  refine ⟨hlr, ?_, ?_⟩
  · rw [← hlr]
    exact lookupProgress_start_self pm u.account.ID u.account.Name _
      u.scanner.label
  · obtain ⟨pm1, hpm⟩ := runUnit_progress_completed rules u env pm res
    rw [hpm, ← hlr]
    exact lookupProgress_complete_self pm1 _ _ _

/-- Witness for progress_region_global at a concrete IAM unit. -/
theorem progress_region_global_witness :
    isIAMScanner { label := "IAM Roles" } = true ∧
    logRegionOf { label := "IAM Roles" } "us-east-1" = "global" := by
  refine ⟨by decide, ?_⟩
  exact (progress_region_global
    { resourceIDs := [], resourceNames := [], tags := [] }
    { scanner := { label := "IAM Roles" }, region := "us-east-1",
      account := { ID := "111111111111", Name := "prod" } }
    { sessionOk := true, scanOutcome := Except.ok [] } [] []
    (by decide)).1

/-- The inner two expansion loops produce one unit per (region, account). -/
theorem flatMap_regions_length (rs : List String) (accounts : List Account)
    (s : Scanner) :
    (rs.flatMap (fun r => accounts.map
      (fun a => ({ scanner := s, region := r, account := a } : ScanUnit)))).length =
      accounts.length * rs.length := by
  induction rs with
  | nil => simp
  | cons r t ih =>
    simp [List.flatMap_cons, ih, Nat.mul_succ, Nat.add_comm]

/-- C1: task expansion produces Σ over scanners of |accounts| ×
|effectiveRegions(scanner)| units, where a global-scope (IAM) scanner's
effective region set is exactly the canonical region us-east-1 regardless
of the requested regions and any other scanner uses the full requested
list; the 2-account, 2-region, one-global-plus-one-regional scenario yields
exactly 6 units. -/
theorem expandUnits_count (scanners : List Scanner) (regions : List String)
    (accounts : List Account) :
    (expandUnits scanners regions accounts).length =
      (scanners.map (fun s =>
        accounts.length * (effectiveRegions regions s).length)).sum ∧
    (∀ s : Scanner, isIAMScanner s = true →
      effectiveRegions regions s = ["us-east-1"]) ∧
    (∀ s : Scanner, isIAMScanner s = false →
      effectiveRegions regions s = regions) ∧
    (expandUnits [{ label := "IAM Roles" }, { label := "EBS Volumes" }]
      ["us-east-1", "us-west-2"]
      [{ ID := "111111111111", Name := "prod" },
       { ID := "222222222222", Name := "dev" }]).length = 6 := by
  refine ⟨?_, fun s hs => by simp [effectiveRegions, hs],
    fun s hs => by simp [effectiveRegions, hs], by decide⟩
  induction scanners with
  | nil => simp [expandUnits]
  | cons s t ih =>
    simp only [expandUnits, List.flatMap_cons, List.length_append,
      List.map_cons, List.sum_cons] at ih ⊢
    rw [flatMap_regions_length, ih]

/-- Witness for expandUnits_count: the IAM scanner's effective regions under
a requested list that omits us-east-1. -/
theorem expandUnits_count_witness :
    isIAMScanner { label := "IAM Roles" } = true ∧
    effectiveRegions ["us-west-2"] { label := "IAM Roles" } =
      ["us-east-1"] := by
  refine ⟨by decide, ?_⟩
  exact (expandUnits_count [] ["us-west-2"] []).2.1
    { label := "IAM Roles" } (by decide)

/-! ### Result filter lemmas -/

/-- The short-circuiting if chain of the filtering loop is the disjunction
of its three checks. -/
theorem shouldIgnore_eq_or (rules : IgnoreRules) (r : ScanResult) :
    shouldIgnoreResult rules r =
      (matchesIgnoreID rules r || matchesIgnoreName rules r ||
        matchesIgnoreTag rules r) := by
  unfold shouldIgnoreResult matchesIgnoreID matchesIgnoreName matchesIgnoreTag
  cases hA : rules.resourceIDs.any (fun ignoreID => eqFold r.ResourceID ignoreID) with
  | true => simp
  | false =>
    cases hB : rules.resourceNames.any
        (fun ignoreName => eqFold r.ResourceName ignoreName) with
    | true => simp
    | false =>
      cases hT : r.Tags.isEmpty with
      | true => simp
      | false => simp

/-- C2: the result filter drops a result iff at least one ignore rule
matches it in the spec's sense, and retains it otherwise: membership in the
filtered list is membership in the input minus the matched results. -/
theorem filterResults_drop_iff (rules : IgnoreRules) (r : ScanResult)
    (rs : List ScanResult) :
    (shouldIgnoreResult rules r = true ↔ specRuleMatches rules r) ∧
    (r ∈ filterResults rules rs ↔ r ∈ rs ∧ ¬ specRuleMatches rules r) := by
  have hTags : (!r.Tags.isEmpty && rules.tags.any (fun ignoreTag =>
      r.Tags.any (fun tag =>
        eqFold tag.1 ignoreTag.1 && eqFold tag.2 ignoreTag.2))) = true ↔
      (∃ it ∈ rules.tags, ∃ t ∈ r.Tags,
        eqFold t.1 it.1 = true ∧ eqFold t.2 it.2 = true) := by
    cases hT : r.Tags.isEmpty with
    | true =>
      have hnil : r.Tags = [] := by simpa using hT
      simp [hnil]
    | false =>
      simp [List.any_eq_true, Bool.and_eq_true]
  have key : shouldIgnoreResult rules r = true ↔ specRuleMatches rules r := by
    rw [shouldIgnore_eq_or]
    unfold specRuleMatches matchesIgnoreID matchesIgnoreName matchesIgnoreTag
    rw [Bool.or_eq_true, Bool.or_eq_true]
    rw [List.any_eq_true, List.any_eq_true, hTags]
    exact or_assoc
  refine ⟨key, ?_⟩
  rw [filterResults, List.mem_filter, ← key]
  simp

/-- The full filter is the conjunction of the three category predicates. -/
theorem filterResults_eq_and (rules : IgnoreRules) (rs : List ScanResult) :
    filterResults rules rs = rs.filter (fun r =>
      !matchesIgnoreID rules r && !matchesIgnoreName rules r &&
        !matchesIgnoreTag rules r) := by
  unfold filterResults
  apply List.filter_congr
  intro r _
  rw [shouldIgnore_eq_or]
  cases matchesIgnoreID rules r <;> cases matchesIgnoreName rules r <;>
    cases matchesIgnoreTag rules r <;> rfl

/-- C8: for a fixed input and rule set the result filter is idempotent, and
applying the id-rule, name-rule and tag-rule categories in any of the six
orders retains exactly the set the fixed id-then-name-then-tag order does,
which is the set the single-pass filter retains. -/
theorem filterResults_idem_comm (rules : IgnoreRules) (rs : List ScanResult) :
    filterResults rules (filterResults rules rs) = filterResults rules rs ∧
    filterByIgnoreTags rules (filterByIgnoreNames rules
      (filterByIgnoreIDs rules rs)) = filterResults rules rs ∧
    filterByIgnoreNames rules (filterByIgnoreTags rules
      (filterByIgnoreIDs rules rs)) = filterResults rules rs ∧
    filterByIgnoreTags rules (filterByIgnoreIDs rules
      (filterByIgnoreNames rules rs)) = filterResults rules rs ∧
    filterByIgnoreIDs rules (filterByIgnoreTags rules
      (filterByIgnoreNames rules rs)) = filterResults rules rs ∧
    filterByIgnoreNames rules (filterByIgnoreIDs rules
      (filterByIgnoreTags rules rs)) = filterResults rules rs ∧
    filterByIgnoreIDs rules (filterByIgnoreNames rules
      (filterByIgnoreTags rules rs)) = filterResults rules rs := by
  have hIdem : filterResults rules (filterResults rules rs) =
      filterResults rules rs := by
    unfold filterResults
    rw [List.filter_filter]
    apply List.filter_congr
    intro r _
    cases shouldIgnoreResult rules r <;> rfl
  refine ⟨hIdem, ?_, ?_, ?_, ?_, ?_, ?_⟩ <;>
    unfold filterResults filterByIgnoreIDs filterByIgnoreNames
      filterByIgnoreTags <;>
    rw [List.filter_filter, List.filter_filter] <;>
    apply List.filter_congr <;>
    intro r _ <;>
    rw [shouldIgnore_eq_or] <;>
    cases matchesIgnoreID rules r <;> cases matchesIgnoreName rules r <;>
      cases matchesIgnoreTag rules r <;> rfl

/-! ### Unit failure frame and result enrichment -/

/-- C7: a unit whose regional session creation fails or whose Scan call
errors returns an error and contributes zero results: the aggregated result
structure is exactly what it was before the unit ran, and under the pool's
continue-on-failure discipline the failure only increments the failure
count while the remaining units of the batch still run. -/
theorem runUnit_failure_no_results (rules : IgnoreRules) (u : ScanUnit)
    (env : UnitEnv) (pm : ProgressMap) (res : ResultsMap)
    (h : env.sessionOk = false ∨ ∃ e, env.scanOutcome = Except.error e) :
    (∃ e, (runUnit rules u env pm res).1 = Except.error e) ∧
    (runUnit rules u env pm res).2.2 = res ∧
    (∀ rest failed,
      executeAll rules ((u, env) :: rest) pm res failed =
        executeAll rules rest (runUnit rules u env pm res).2.1 res
          (failed + 1)) := by
  rcases h with hs | ⟨e, he⟩
  · refine ⟨⟨"failed to create regional session", ?_⟩, ?_, fun rest failed => ?_⟩
    · simp [runUnit, hs]
    · simp [runUnit, hs]
    · simp [executeAll, runUnit, hs]
  · cases hs : env.sessionOk with
    | false =>
      refine ⟨⟨"failed to create regional session", ?_⟩, ?_,
        fun rest failed => ?_⟩
      · simp [runUnit, hs]
      · simp [runUnit, hs]
      · simp [executeAll, runUnit, hs]
    | true =>
      refine ⟨⟨e, ?_⟩, ?_, fun rest failed => ?_⟩
      · simp [runUnit, hs, he]
      · simp [runUnit, hs, he]
      · simp [executeAll, runUnit, hs, he]

/-- Witness for runUnit_failure_no_results at a concrete failing unit. -/
theorem runUnit_failure_no_results_witness :
    (∃ e, (runUnit { resourceIDs := [], resourceNames := [], tags := [] }
      { scanner := { label := "EBS Volumes" }, region := "us-west-2",
        account := { ID := "111111111111", Name := "prod" } }
      { sessionOk := false, scanOutcome := Except.ok [] } [] []).1 =
        Except.error e) ∧
    (runUnit { resourceIDs := [], resourceNames := [], tags := [] }
      { scanner := { label := "EBS Volumes" }, region := "us-west-2",
        account := { ID := "111111111111", Name := "prod" } }
      { sessionOk := false, scanOutcome := Except.ok [] } [] []).2.2 = [] := by
  have h := runUnit_failure_no_results
    { resourceIDs := [], resourceNames := [], tags := [] }
    { scanner := { label := "EBS Volumes" }, region := "us-west-2",
      account := { ID := "111111111111", Name := "prod" } }
    { sessionOk := false, scanOutcome := Except.ok [] } [] []
    (Or.inl rfl)
  exact ⟨h.1, h.2.1⟩

/-- A find? miss on the first list shifts find? over an append to the
second list. -/
theorem find_append_of_none {κ β : Type} [BEq κ]
    (l₁ l₂ : List (κ × β)) (q : κ × β → Bool)
    (h : l₁.find? q = none) : (l₁ ++ l₂).find? q = l₂.find? q := by
  induction l₁ with
  | nil => rfl
  | cons p t ih =>
    cases hp : q p with
    | true => rw [List.find?_cons_of_pos _ hp] at h; cases h
    | false =>
      rw [List.find?_cons_of_neg _ (by simp [hp])] at h
      rw [List.cons_append, List.find?_cons_of_neg _ (by simp [hp])]
      exact ih h

/-- Setting a Details key makes it resolve to the written value. -/
theorem detailsGet_set_self (d : List (String × String)) (k v : String) :
    detailsGet (detailsSet d k v) k = some v := by
  unfold detailsGet detailsSet
  cases hany : d.any (fun p => p.1 == k) with
  | true =>
    rw [if_pos rfl, find_map_update d k (fun _ => v)]
    obtain ⟨p, hp, hpk⟩ := List.any_eq_true.mp hany
    have hne : d.find? (fun q => q.1 == k) ≠ none := by
      intro hnone
      exact (List.find?_eq_none.mp hnone p hp) hpk
    obtain ⟨q, hq⟩ := Option.ne_none_iff_exists'.mp hne
    rw [hq]
    rfl
  | false =>
    have hnone : d.find? (fun q => q.1 == k) = none := by
      apply List.find?_eq_none.mpr
      intro p hp hcon
      have hT : (d.any fun q => q.1 == k) = true :=
        List.any_eq_true.mpr ⟨p, hp, hcon⟩
      rw [hany] at hT
      cases hT
    rw [if_neg (by simp)]
    rw [find_append_of_none d [(k, v)] _ hnone]
    rw [List.find?_cons_of_pos _ (by simp)]
    rfl

/-- C9: on the success path the orchestrator populates every retained
result post-hoc with the unit's account ID and account name and a Details
region label that is "global" for a global-scope (IAM) scanner and the
actual region otherwise, and appends exactly these enriched retained
results to the aggregated structure. -/
theorem runUnit_enriches_results (rules : IgnoreRules) (u : ScanUnit)
    (env : UnitEnv) (pm : ProgressMap) (res : ResultsMap)
    (results : List ScanResult)
    (hs : env.sessionOk = true) (ho : env.scanOutcome = Except.ok results) :
    (runUnit rules u env pm res).2.2 =
      appendResults res u.account.ID u.scanner.label
        (enrichResults u.scanner u.region u.account
          (filterResults rules results)) ∧
    ∀ r ∈ enrichResults u.scanner u.region u.account
        (filterResults rules results),
      r.AccountID = u.account.ID ∧ r.AccountName = u.account.Name ∧
      ∃ d, r.Details = some d ∧ detailsGet d "region" =
        some (if isIAMScanner u.scanner then "global" else u.region) := by
  constructor
  · simp [runUnit, hs, ho]
  · intro r hr
    unfold enrichResults at hr
    obtain ⟨r0, _, hmap⟩ := List.mem_map.mp hr
    refine ⟨?_, ?_, ?_⟩
    · rw [← hmap]
    · rw [← hmap]
    · refine ⟨detailsSet (r0.Details.getD []) "region"
        (if isIAMScanner u.scanner then "global" else u.region), ?_, ?_⟩
      · rw [← hmap]
      · exact detailsGet_set_self _ "region" _

/-- Witness for runUnit_enriches_results at a concrete successful unit. -/
theorem runUnit_enriches_results_witness :
    (runUnit { resourceIDs := [], resourceNames := [], tags := [] }
      { scanner := { label := "EBS Volumes" }, region := "us-west-2",
        account := { ID := "111111111111", Name := "prod" } }
      { sessionOk := true, scanOutcome := Except.ok [] } [] []).2.2 =
      appendResults [] "111111111111" "EBS Volumes"
        (enrichResults { label := "EBS Volumes" } "us-west-2"
          { ID := "111111111111", Name := "prod" }
          (filterResults
            { resourceIDs := [], resourceNames := [], tags := [] } [])) :=
  (runUnit_enriches_results
    { resourceIDs := [], resourceNames := [], tags := [] }
    { scanner := { label := "EBS Volumes" }, region := "us-west-2",
      account := { ID := "111111111111", Name := "prod" } }
    { sessionOk := true, scanOutcome := Except.ok [] } [] [] []
    rfl rfl).1

/-! ### Explicit account filter -/

/-- C5: with an explicit non-empty requested-account list, the requested
IDs missing from the resolved listing are exactly the ones reported
invalid, the kept set is exactly the listed accounts that were requested
(so missing IDs are dropped), the run fails with the fatal error iff the
kept set is empty, and in the resolution pipeline a fatal error can only
arise from this filter — before any scan unit is created. -/
theorem explicitAccountFilter (orgRole scannerRole optsAccounts : String)
    (env : ResolveEnv) (scanners : List Scanner) (regions : List String)
    (accounts : List Account) (h : optsAccounts ≠ "") :
    (∀ fs inv, filterAccountsByRequest optsAccounts accounts =
        Except.ok (fs, inv) →
      inv = ((optsAccounts.splitOn ",").map (fun s => s.trim)).filter
          (fun id => !accounts.any (fun a => a.ID == id)) ∧
      fs = accounts.filter (fun a =>
          ((optsAccounts.splitOn ",").map (fun s => s.trim)).any
            (fun id => id == a.ID)) ∧
      fs ≠ []) ∧
    ((∃ e, filterAccountsByRequest optsAccounts accounts = Except.error e) ↔
      accounts.filter (fun a =>
        ((optsAccounts.splitOn ",").map (fun s => s.trim)).any
          (fun id => id == a.ID)) = []) ∧
    (∀ e, resolveAndExpand orgRole scannerRole optsAccounts env scanners
        regions = Except.error e →
      ∃ accs, listAccounts orgRole scannerRole env = some accs ∧
        filterAccountsByRequest optsAccounts accs = Except.error e) := by
  have hne : (optsAccounts == "") = false := beq_eq_false_iff_ne.mpr h
  refine ⟨?_, ?_, ?_⟩
  · intro fs inv hok
    simp only [filterAccountsByRequest, hne, Bool.false_eq_true,
      if_false] at hok
    split at hok
    · cases hok
    · rename_i hemp
      have hpair := Except.ok.inj hok
      rw [Prod.mk.injEq] at hpair
      obtain ⟨h1, h2⟩ := hpair
      refine ⟨h2.symm, h1.symm, ?_⟩
      rw [← h1]
      intro hcon
      exact hemp (by rw [hcon]; rfl)
  · constructor
    · rintro ⟨e, he⟩
      simp only [filterAccountsByRequest, hne, Bool.false_eq_true,
        if_false] at he
      split at he
      · rename_i hemp
        simpa using hemp
      · cases he
    · intro hemp
      refine ⟨"none of the specified accounts exist in the organization", ?_⟩
      simp only [filterAccountsByRequest, hne, Bool.false_eq_true, if_false]
      split
      · rfl
      · rename_i hcon
        exact absurd (by rw [hemp]; rfl) hcon
  · intro e hres
    cases hls : listAccounts orgRole scannerRole env with
    | none =>
      simp only [resolveAndExpand, hls] at hres
      cases hres
    | some accs =>
      simp only [resolveAndExpand, hls] at hres
      cases hf : filterAccountsByRequest optsAccounts accs with
      | error e2 =>
        simp only [hf] at hres
        exact ⟨accs, rfl, by rw [hf, Except.error.inj hres]⟩
      | ok pr =>
        obtain ⟨fs2, inv2⟩ := pr
        simp only [hf] at hres
        split at hres <;> split at hres <;> cases hres

/-- Witness for explicitAccountFilter: requesting account 999999999999
against a listing that does not contain it is the fatal case. -/
theorem explicitAccountFilter_witness :
    ("999999999999" : String) ≠ "" ∧
    (∃ e, filterAccountsByRequest "999999999999" [] = Except.error e) := by
  refine ⟨by decide, ?_⟩
  exact (explicitAccountFilter "" "" "999999999999"
    { orgListing := Except.ok [], currentAccount := Except.ok [],
      authOk := fun _ => true } [] [] [] (by decide)).2.1.mpr rfl

/-! ### Aggregation under arbitrary unit orderings -/

/-- A find? hit on the first list is a find? hit on the whole append. -/
theorem find_append_of_some {κ β : Type} [BEq κ]
    (l₁ l₂ : List (κ × β)) (q : κ × β → Bool) {x : κ × β}
    (h : l₁.find? q = some x) : (l₁ ++ l₂).find? q = some x := by
  induction l₁ with
  | nil => cases h
  | cons p t ih =>
    cases hp : q p with
    | true =>
      rw [List.find?_cons_of_pos _ hp] at h
      rw [List.cons_append, List.find?_cons_of_pos _ hp]
      exact h
    | false =>
      rw [List.find?_cons_of_neg _ (by simp [hp])] at h
      rw [List.cons_append, List.find?_cons_of_neg _ (by simp [hp])]
      exact ih h

/-- Appending results under a key extends exactly that key's slice. -/
theorem lookupResults_append_self (m : ResultsMap) (a l : String)
    (rs : List ScanResult) :
    lookupResults (appendResults m a l rs) (a, l) =
      lookupResults m (a, l) ++ rs := by
  unfold lookupResults appendResults
  cases hany : m.any (fun p => p.1 == (a, l)) with
  | true =>
    rw [if_pos rfl, find_map_update m (a, l) (fun v => v ++ rs)]
    obtain ⟨p, hp, hpk⟩ := List.any_eq_true.mp hany
    have hne : m.find? (fun q => q.1 == (a, l)) ≠ none := by
      intro hnone
      exact (List.find?_eq_none.mp hnone p hp) hpk
    obtain ⟨q, hq⟩ := Option.ne_none_iff_exists'.mp hne
    rw [hq]
    rfl
  | false =>
    have hnone : m.find? (fun q => q.1 == (a, l)) = none := by
      apply List.find?_eq_none.mpr
      intro p hp hcon
      have hT : (m.any fun q => q.1 == (a, l)) = true :=
        List.any_eq_true.mpr ⟨p, hp, hcon⟩
      rw [hany] at hT
      cases hT
    rw [if_neg (by simp), find_append_of_none m [((a, l), rs)] _ hnone,
      List.find?_cons_of_pos _ (by simp), hnone]
    rfl

/-- Appending results under a key leaves every other key's slice alone. -/
theorem lookupResults_append_ne (m : ResultsMap) (a l : String)
    (rs : List ScanResult) (k : String × String) (hk : k ≠ (a, l)) :
    lookupResults (appendResults m a l rs) k = lookupResults m k := by
  have hb : (k == (a, l)) = false := beq_eq_false_iff_ne.mpr hk
  unfold lookupResults appendResults
  cases hany : m.any (fun p => p.1 == (a, l)) with
  | true =>
    rw [if_pos rfl, find_map_update_ne m (a, l) k (fun v => v ++ rs) hb]
  | false =>
    rw [if_neg (by simp)]
    cases hm : m.find? (fun q => q.1 == k) with
    | some q =>
      rw [find_append_of_some m [((a, l), rs)] _ hm]
    | none =>
      rw [find_append_of_none m [((a, l), rs)] _ hm,
        List.find?_cons_of_neg _ (by simpa using Ne.symm hk)]
      simp [hm]

/-- Running a batch sequentially accumulates, under each key, exactly the
contributions of the units targeting that key, in batch order, after
whatever the key already held. -/
theorem executeAll_lookup (rules : IgnoreRules)
    (units : List (ScanUnit × UnitEnv)) (pm : ProgressMap)
    (res : ResultsMap) (f : Nat) (k : String × String) :
    lookupResults (executeAll rules units pm res f).2.1 k =
      lookupResults res k ++
        (units.filter (fun ue => targetKey ue.1 == k)).flatMap
          (fun ue => unitContribution rules ue.1 ue.2) := by
  induction units generalizing pm res f with
  | nil => simp [executeAll]
  | cons ue rest ih =>
    obtain ⟨u, env⟩ := ue
    cases hs : env.sessionOk with
    | false =>
      have hstep : executeAll rules ((u, env) :: rest) pm res f =
          executeAll rules rest (runUnit rules u env pm res).2.1 res
            (f + 1) := by
        simp [executeAll, runUnit, hs]
      have hcontrib : unitContribution rules u env = [] := by
        simp [unitContribution, hs]
      rw [hstep, ih]
      cases hfk : (targetKey u == k) with
      | true => simp [List.filter_cons, hfk, hcontrib]
      | false => simp [List.filter_cons, hfk]
    | true =>
      cases ho : env.scanOutcome with
      | error e =>
        have hstep : executeAll rules ((u, env) :: rest) pm res f =
            executeAll rules rest (runUnit rules u env pm res).2.1 res
              (f + 1) := by
          simp [executeAll, runUnit, hs, ho]
        have hcontrib : unitContribution rules u env = [] := by
          simp [unitContribution, hs, ho]
        rw [hstep, ih]
        cases hfk : (targetKey u == k) with
        | true => simp [List.filter_cons, hfk, hcontrib]
        | false => simp [List.filter_cons, hfk]
      | ok results =>
        have hstep : executeAll rules ((u, env) :: rest) pm res f =
            executeAll rules rest (runUnit rules u env pm res).2.1
              (appendResults res u.account.ID u.scanner.label
                (enrichResults u.scanner u.region u.account
                  (filterResults rules results))) f := by
          simp [executeAll, runUnit, hs, ho]
        have hcontrib : unitContribution rules u env =
            enrichResults u.scanner u.region u.account
              (filterResults rules results) := by
          simp [unitContribution, hs, ho]
        rw [hstep, ih]
        cases hfk : (targetKey u == k) with
        | true =>
          have hkeq : (u.account.ID, u.scanner.label) = k := beq_iff_eq.mp hfk
          rw [← hkeq, lookupResults_append_self]
          simp [List.filter_cons, targetKey, hcontrib, List.append_assoc]
        | false =>
          have hkne : k ≠ (u.account.ID, u.scanner.label) :=
            Ne.symm (beq_eq_false_iff_ne.mp hfk)
          rw [lookupResults_append_ne res _ _ _ k hkne]
          simp [List.filter_cons, hfk]

/-- C4: after all units of a batch have completed, each (account, scanner)
key of the aggregated structure holds exactly the retained contributions of
the units that targeted it — in batch order, with nothing lost, duplicated
or corrupted — the total length is the sum of the units' contribution
sizes, and permuting the batch (any interleaving of completions) yields a
permutation of the same slice. -/
theorem aggregator_union (rules : IgnoreRules)
    (units units' : List (ScanUnit × UnitEnv)) (pm pm' : ProgressMap)
    (res : ResultsMap) (f f' : Nat) (k : String × String)
    (hperm : units.Perm units') :
    lookupResults (executeAll rules units pm res f).2.1 k =
      lookupResults res k ++
        (units.filter (fun ue => targetKey ue.1 == k)).flatMap
          (fun ue => unitContribution rules ue.1 ue.2) ∧
    (lookupResults (executeAll rules units pm res f).2.1 k).Perm
      (lookupResults (executeAll rules units' pm' res f').2.1 k) ∧
    (lookupResults (executeAll rules units pm res f).2.1 k).length =
      (lookupResults res k).length +
        ((units.filter (fun ue => targetKey ue.1 == k)).map
          (fun ue => (unitContribution rules ue.1 ue.2).length)).sum := by
  refine ⟨executeAll_lookup rules units pm res f k, ?_, ?_⟩
  · rw [executeAll_lookup, executeAll_lookup]
    exact List.Perm.append_left _
      ((hperm.filter _).flatMap_right
        (fun ue => unitContribution rules ue.1 ue.2))
  · rw [executeAll_lookup, List.length_append, List.length_flatMap]
    simp [Function.comp_def]

/-- Witness for aggregator_union: two units for the same (account, scanner)
key, each contributing one distinct volume, in the two completion orders. -/
theorem aggregator_union_witness :
    (lookupResults (executeAll
        { resourceIDs := [], resourceNames := [], tags := [] }
        [({ scanner := { label := "EBS Volumes" }, region := "us-west-2", account := { ID := "111111111111", Name := "prod" } }, { sessionOk := true, scanOutcome := Except.ok [{ ResourceID := "vol-123", ResourceName := "a", Tags := [], Details := none, AccountID := "", AccountName := "" }] }),
         ({ scanner := { label := "EBS Volumes" }, region := "us-west-2", account := { ID := "111111111111", Name := "prod" } }, { sessionOk := true, scanOutcome := Except.ok [{ ResourceID := "vol-456", ResourceName := "b", Tags := [], Details := none, AccountID := "", AccountName := "" }] })]
        [] [] 0).2.1 ("111111111111", "EBS Volumes")).Perm
      (lookupResults (executeAll
        { resourceIDs := [], resourceNames := [], tags := [] }
        [({ scanner := { label := "EBS Volumes" }, region := "us-west-2", account := { ID := "111111111111", Name := "prod" } }, { sessionOk := true, scanOutcome := Except.ok [{ ResourceID := "vol-456", ResourceName := "b", Tags := [], Details := none, AccountID := "", AccountName := "" }] }),
         ({ scanner := { label := "EBS Volumes" }, region := "us-west-2", account := { ID := "111111111111", Name := "prod" } }, { sessionOk := true, scanOutcome := Except.ok [{ ResourceID := "vol-123", ResourceName := "a", Tags := [], Details := none, AccountID := "", AccountName := "" }] })]
        [] [] 0).2.1 ("111111111111", "EBS Volumes")) :=
  (aggregator_union
    { resourceIDs := [], resourceNames := [], tags := [] } _ _ [] [] [] 0 0
    ("111111111111", "EBS Volumes")
    (List.Perm.swap _ _ [])).2.1

end Cloudsift
